import Mathlib

/-!
Verification of the NemoLens bounded-concurrency segment-analysis pipeline.

This file gives a shallow embedding of the core of the repository:

* `src/nemotron_client.py` — the request client `_post` (retry with
  exponential backoff on HTTP 429 / timeout / connection failure), the
  per-call helpers `_get_key` and `describe_frames`, and the parallel
  scheduler `describe_segments_parallel`;
* `src/intelligence.py` — the pure context assembler `build_full_context`
  and the shared time formatter `_fmt`;
* `src/transcription.py` — `get_transcript_for_range`.

Network I/O is modelled by an oracle `Nat → AttemptOutcome` giving the
outcome of each successive HTTP attempt; `time.sleep` is modelled by
recording the requested delay in a trace; the thread pool's nondeterministic
completion order is modelled by an arbitrary permutation `order` of the job
indices (futures are handed back by `as_completed` in some order, one each),
and separately by a small-step transition relation for the bounded worker
pool itself.  Times are rationals (Python floats are out of scope; all the
claims are discrete/order-theoretic in the times).
-/

namespace NemoLens

/-! ### Constants (src/nemotron_client.py lines 13-17) -/

def MAX_IMAGES_PER_REQUEST : Nat := 5

def MAX_WORKERS : Nat := 3

def MAX_RETRIES : Nat := 3

def BASE_RETRY_DELAY : Nat := 3

/-! ### Request client: `_post` (src/nemotron_client.py lines 32-71)

One network attempt either yields an HTTP response (a status code plus a
parsed JSON body) or fails with a timeout / connection error — exactly the
two exception classes the source's `except` clause catches.  The JSON body
is modelled by the two pieces of it the source ever reads: the optional
top-level "error" field and the `choices[0].message.content` string. -/

inductive NetErr
  | timeout
  | connError
deriving DecidableEq, Repr

structure RespBody where
  error : Option String
  content : String
deriving DecidableEq, Repr

inductive AttemptOutcome
  | response (status : Nat) (body : RespBody)
  | netFail (e : NetErr)
deriving DecidableEq, Repr

/-- Errors the client can surface.  In Python they are all exceptions:
`config` is the RuntimeError "NVIDIA_API_KEY is not set.", `httpStatus` is
the requests `HTTPError` raised by `resp.raise_for_status()`, `remote` is
the RuntimeError raised for a 2xx body carrying an "error" field, and
`exhausted` is the RuntimeError "NVIDIA API request failed after {n}
attempts: {exc}" which wraps the last observed network error `exc` and the
total attempt count `n`. -/
inductive ClientError
  | config (msg : String)
  | httpStatus (code : Nat)
  | remote (msg : String)
  | exhausted (attempts : Nat) (last : NetErr)
deriving DecidableEq, Repr

deriving instance DecidableEq for Except

/-- Observable behaviour of one `_post` call: its result, the list of
delays passed to `time.sleep` in chronological order, and how many HTTP
attempts were issued. -/
structure PostTrace where
  result : Except ClientError RespBody
  sleeps : List Nat
  attempts : Nat
deriving DecidableEq, Repr

/-- Lines 48-54 of src/nemotron_client.py: `resp.raise_for_status()` —
which raises exactly for status codes in 400..599 — followed by the check
for an "error" field in the decoded JSON body, else return the body. -/
def handleResponse (status : Nat) (body : RespBody) : Except ClientError RespBody :=
  if 400 ≤ status ∧ status < 600 then .error (.httpStatus status)
  else
    match body.error with
    | some m => .error (.remote m)
    | none => .ok body

/-- The retry loop of `_post` (src/nemotron_client.py lines 35-68).
`attempt` is the Python loop variable; `remaining` is `retries - attempt`,
so the loop guard `attempt < retries` becomes `remaining > 0` and the
recursion is structural in `remaining`.  On a 429 with retries remaining
the code sleeps `BASE_RETRY_DELAY * 2 ** attempt` and retries; on the final
attempt a 429 falls through to `raise_for_status` like any other status.
A timeout / connection error sleeps the same delay and retries, and on the
final attempt is wrapped into the "failed after {retries+1} attempts"
RuntimeError (at the final attempt, `attempt + 1 = retries + 1`).  The
trailing `raise` after the Python `for` loop (lines 69-71) is unreachable:
the final iteration always returns or raises. -/
def postLoop (oracle : Nat → AttemptOutcome) : Nat → Nat → PostTrace
  | attempt, 0 =>
    match oracle attempt with
    | .response status body => ⟨handleResponse status body, [], 1⟩
    | .netFail e => ⟨.error (.exhausted (attempt + 1) e), [], 1⟩
  | attempt, remaining + 1 =>
    match oracle attempt with
    | .response status body =>
      if status = 429 then
        let rest := postLoop oracle (attempt + 1) remaining
        ⟨rest.result, BASE_RETRY_DELAY * 2 ^ attempt :: rest.sleeps, rest.attempts + 1⟩
      else ⟨handleResponse status body, [], 1⟩
    | .netFail _ =>
      let rest := postLoop oracle (attempt + 1) remaining
      ⟨rest.result, BASE_RETRY_DELAY * 2 ^ attempt :: rest.sleeps, rest.attempts + 1⟩

/-- Whole `_post` call: the loop starts at attempt 0 with `retries` further
attempts allowed. -/
def post (oracle : Nat → AttemptOutcome) (retries : Nat) : PostTrace :=
  postLoop oracle 0 retries

/-! ### Credential lookup and `describe_frames`
(src/nemotron_client.py lines 20-21 and 76-106) -/

/-- Line 21: `api_key or os.getenv("NVIDIA_API_KEY", "")`.  A missing
`api_key` argument (Python `None`) and an explicitly empty one are both
falsy, as is an unset environment variable, so both are modelled by `""`. -/
def get_key (apiKey envKey : String) : String :=
  if apiKey = "" then envKey else apiKey

inductive ContentItem
  | text (t : String)
  | image_url (url : String)
deriving DecidableEq, Repr

/-- Lines 86-93: the frame list is truncated to `MAX_IMAGES_PER_REQUEST`
and each frame becomes a data-URI image item after the prompt text item. -/
def requestContent (framesB64 : List String) (prompt : String) : List ContentItem :=
  ContentItem.text prompt ::
    (framesB64.take MAX_IMAGES_PER_REQUEST).map
      (fun b64 => ContentItem.image_url ("data:image/jpeg;base64," ++ b64))

/-- Lines 76-106: `describe_frames`.  The network oracle may depend on the
request content; the credential check precedes everything else.  On success
the source returns `data["choices"][0]["message"]["content"]`. -/
def describe_frames (framesB64 : List String) (prompt : String)
    (apiKey envKey : String) (net : List ContentItem → Nat → AttemptOutcome) :
    Except ClientError String :=
  if get_key apiKey envKey = "" then .error (.config "NVIDIA_API_KEY is not set.")
  else
    match (post (net (requestContent framesB64 prompt)) MAX_RETRIES).result with
    | .error e => .error e
    | .ok body => .ok body.content

/-! ### Parallel scheduler: `describe_segments_parallel`
(src/nemotron_client.py lines 109-186) -/

/-- Input unit (the dict documented at lines 117-121). -/
structure Segment where
  frames_b64 : List String
  start_time : ℚ
  end_time : ℚ
  transcript_chunk : String
deriving DecidableEq, Repr

/-- Output unit (the dict built at lines 176-181). -/
structure SegResult where
  start_time : ℚ
  end_time : ℚ
  transcript_chunk : String
  visual_description : String
deriving DecidableEq, Repr

/-- Lines 169-175: the graceful-degradation fallback description. -/
def fallbackDescription (transcript : String) : String :=
  if transcript ≠ "" then "[Visual analysis unavailable for this segment] " ++ transcript
  else "[Visual analysis unavailable for this segment]"

/-- Lines 159-181: the result dict stored at the job's original index,
built either from the successful `describe_frames` value or — when the
future raised any exception — from the transcript fallback. -/
def segResultFor (seg : Segment) (out : Except ClientError String) : SegResult :=
  { start_time := seg.start_time
    end_time := seg.end_time
    transcript_chunk := seg.transcript_chunk
    visual_description :=
      match out with
      | .ok d => d
      | .error _ => fallbackDescription seg.transcript_chunk }

/-- State of the `as_completed` collection loop: the pre-sized result list
(`results = [None] * len(segments)`, line 131), the `completed` counter
(line 132), and instrumentation recording every `on_complete` invocation
and the number of per-segment network jobs consumed. -/
structure SchedState where
  results : List (Option SegResult)
  completed : Nat
  callbackCalls : List (Nat × Nat)
  networkCalls : Nat
deriving DecidableEq, Repr

/-- One iteration of the `for future in as_completed(futures)` loop (lines
156-184) handling the future of job `idx`: store the result at slot `idx`,
bump `completed`, and invoke `on_complete(completed, len(segments))`.
`outcome idx` is what `future.result()` does for job `idx`: either the
description string or the exception the worker raised.  An `idx` outside
the segment list cannot arise from the futures dict (line 152-155) and is
modelled as a no-op. -/
def schedStep (segments : List Segment) (outcome : Nat → Except ClientError String)
    (st : SchedState) (idx : Nat) : SchedState :=
  match segments[idx]? with
  | none => st
  | some seg =>
    { results := st.results.set idx (some (segResultFor seg (outcome idx)))
      completed := st.completed + 1
      callbackCalls := st.callbackCalls ++ [(st.completed + 1, segments.length)]
      networkCalls := st.networkCalls + 1 }

/-- The collection loop run over the whole completion order. `order` is the
sequence in which `as_completed` hands back the futures: each submitted
job's future appears exactly once, in an arbitrary (nondeterministic)
order; the theorems quantify over every permutation of the indices. -/
def runScheduler (segments : List Segment) (outcome : Nat → Except ClientError String)
    (order : List Nat) : SchedState :=
  order.foldl (schedStep segments outcome)
    ⟨List.replicate segments.length none, 0, [], 0⟩

/-- Lines 109-186: `describe_segments_parallel`.  The credential check at
lines 127-129 precedes the creation of the thread pool, so on a missing
key no job is scheduled and no network call is issued — the error branch
carries no `SchedState` at all. -/
def describe_segments_parallel (apiKey envKey : String) (segments : List Segment)
    (outcome : Nat → Except ClientError String) (order : List Nat) :
    Except ClientError SchedState :=
  if get_key apiKey envKey = "" then .error (.config "NVIDIA_API_KEY is not set.")
  else .ok (runScheduler segments outcome order)

/-! ### Worker-pool semantics (claim C4)

`describe_segments_parallel` submits every job to
`ThreadPoolExecutor(max_workers=MAX_WORKERS)` (line 151).  The executor's
contract is a fixed pool of at most `max_workers` workers drawing submitted
jobs from a queue; we model it as a small-step transition relation: a
pending job may start only while fewer than `W` jobs are running, and a
running job may finish.  Each worker job issues its network request
synchronously, so running jobs coincide with in-flight requests. -/

structure PoolState where
  pending : List Nat
  running : List Nat
  done : List Nat
deriving DecidableEq, Repr

inductive PoolStep (W : Nat) : PoolState → PoolState → Prop
  | start (s : PoolState) (j : Nat) (hj : j ∈ s.pending) (hW : s.running.length < W) :
      PoolStep W s ⟨s.pending.erase j, j :: s.running, s.done⟩
  | finish (s : PoolState) (j : Nat) (hj : j ∈ s.running) :
      PoolStep W s ⟨s.pending, s.running.erase j, j :: s.done⟩

/-- All `n` jobs are submitted up front (lines 152-155); none is running. -/
def poolInit (n : Nat) : PoolState :=
  ⟨List.range n, [], []⟩

def PoolReachable (W n : Nat) (s : PoolState) : Prop :=
  Relation.ReflTransGen (PoolStep W) (poolInit n) s

/-! ### Time formatting: `_fmt`
(src/nemotron_client.py lines 259-264, identical copy at
src/intelligence.py lines 8-13) -/

/-- Python's `f"{n:02d}"` on the values 0 ≤ n < 60 produced below. -/
def pad2 (n : Int) : String :=
  if n < 10 then "0" ++ toString n else toString n

/-- Python `int(seconds)` truncates toward zero; `Int.tdiv` on the
numerator and denominator of the rational does the same. -/
def pyInt (q : ℚ) : Int :=
  Int.tdiv q.num q.den

/-- Lines 259-264: `m, s = divmod(int(seconds), 60); h, m = divmod(m, 60)`
with Python's floored divmod, then `f"{h}:{m:02d}:{s:02d}"` when `h` is
nonzero else `f"{m:02d}:{s:02d}"`. -/
def fmt (seconds : ℚ) : String :=
  let t : Int := pyInt seconds
  let m1 := Int.ediv t 60
  let s := Int.emod t 60
  let h := Int.ediv m1 60
  let m := Int.emod m1 60
  if h ≠ 0 then toString h ++ ":" ++ pad2 m ++ ":" ++ pad2 s
  else pad2 m ++ ":" ++ pad2 s

/-! ### Context assembler: `build_full_context`
(src/intelligence.py lines 23-34) -/

/-- Python `sep.join(parts)`. -/
def pyJoin (sep : String) : List String → String
  | [] => ""
  | [part] => part
  | part :: rest => part ++ sep ++ pyJoin sep rest

/-- The loop body of lines 26-33: one segment's block string, built by
successive concatenation — the bracketed time range line, then the
`Transcript:` line if `seg.get("transcript_chunk")` is truthy, then the
`Visual:` line if `seg.get("visual_description")` is truthy. -/
def segmentBlock (seg : SegResult) : String :=
  let ts := fmt seg.start_time ++ " - " ++ fmt seg.end_time
  let block := "[" ++ ts ++ "]\n"
  let block := if seg.transcript_chunk ≠ "" then
      block ++ ("Transcript: " ++ seg.transcript_chunk ++ "\n") else block
  let block := if seg.visual_description ≠ "" then
      block ++ ("Visual: " ++ seg.visual_description ++ "\n") else block
  block

/-- Lines 23-34: the blocks, in input order, joined with "\n". -/
def build_full_context (analyzed_segments : List SegResult) : String :=
  pyJoin "\n" (analyzed_segments.map segmentBlock)

/-- The block as the specification words it: a bracketed time-range header
line, then a `Transcript:` line exactly when the transcript is non-empty,
then a `Visual:` line exactly when the description is non-empty.  Written
from the spec for comparison with `build_full_context`. -/
def contextBlockSpec (seg : SegResult) : String :=
  ("[" ++ (fmt seg.start_time ++ " - " ++ fmt seg.end_time) ++ "]\n")
    ++ (if seg.transcript_chunk ≠ "" then "Transcript: " ++ seg.transcript_chunk ++ "\n" else "")
    ++ (if seg.visual_description ≠ "" then "Visual: " ++ seg.visual_description ++ "\n" else "")

/-! ### Transcript range extraction: `get_transcript_for_range`
(src/transcription.py lines 112-120) -/

/-- One Whisper transcript segment (the dicts built at lines 96-100).  The
source's `"end"` key is named `stop` here because `end` is a Lean keyword. -/
structure TranscriptSeg where
  start : ℚ
  stop : ℚ
  text : String
deriving DecidableEq, Repr

/-- Lines 112-120: collect `seg["text"]` for every segment with
`seg["end"] > start and seg["start"] < end`, in input order, then
`" ".join(parts)`. -/
def get_transcript_for_range (segments : List TranscriptSeg) (start finish : ℚ) : String :=
  pyJoin " "
    (segments.foldl
      (fun parts seg =>
        if seg.stop > start ∧ seg.start < finish then parts ++ [seg.text] else parts)
      [])

/-- Strict-overlap test as the claim words it: the segment overlaps the
open-interval sense of the range, a mere boundary touch not counting. -/
def overlapsRange (seg : TranscriptSeg) (start finish : ℚ) : Bool :=
  decide (start < seg.stop ∧ seg.start < finish)

/-! ### Concrete witness inputs -/

def segA : Segment :=
  { frames_b64 := ["ZnJhbWUx"], start_time := 0, end_time := 30,
    transcript_chunk := "hello world" }

def segB : Segment :=
  { frames_b64 := [], start_time := 30, end_time := 60, transcript_chunk := "" }

def outcomeW : Nat → Except ClientError String :=
  fun i => if i = 0 then .ok "a lecture slide" else .error (.exhausted 4 .timeout)

def always429 : Nat → AttemptOutcome :=
  fun _ => .response 429 ⟨none, ""⟩

def alwaysTimeout : Nat → AttemptOutcome :=
  fun _ => .netFail .timeout

def resp300 : Nat → AttemptOutcome :=
  fun _ => .response 300 ⟨none, "redirected"⟩

def resp500 : Nat → AttemptOutcome :=
  fun _ => .response 500 ⟨none, ""⟩

def respRemoteErr : Nat → AttemptOutcome :=
  fun _ => .response 200 ⟨some "content policy", ""⟩

def isExhaustedResult (t : PostTrace) : Bool :=
  match t.result with
  | .error (.exhausted _ _) => true
  | _ => false

def resultIsOk (t : PostTrace) : Bool :=
  match t.result with
  | .ok _ => true
  | .error _ => false

/-! ## Request-client lemmas -/

/-- Every delay recorded by the retry loop follows the exponential schedule:
the sleep at position `n` of the trace (begun at `attempt`) is
`BASE_RETRY_DELAY * 2 ^ (attempt + n)`, whether it was provoked by a 429
response or by a timeout / connection failure. -/
theorem postLoop_sleeps (oracle : Nat → AttemptOutcome) :
    ∀ remaining attempt n, n < (postLoop oracle attempt remaining).sleeps.length →
      (postLoop oracle attempt remaining).sleeps[n]?
        = some (BASE_RETRY_DELAY * 2 ^ (attempt + n)) := by
  intro remaining
  induction remaining with
  | zero =>
    intro attempt n h
    cases hor : oracle attempt <;> simp [postLoop, hor] at h
  | succ remaining ih =>
    intro attempt n h
    cases hor : oracle attempt with
    | response status body =>
      by_cases h429 : status = 429
      · simp only [postLoop, hor, h429, if_true] at h ⊢
        cases n with
        | zero => simp
        | succ n =>
          simp only [List.getElem?_cons_succ, List.length_cons] at h ⊢
          have := ih (attempt + 1) n (by omega)
          rw [this]
          have harith : attempt + 1 + n = attempt + (n + 1) := by omega
          rw [harith]
      · simp [postLoop, hor, h429] at h
    | netFail e =>
      simp only [postLoop, hor] at h ⊢
      cases n with
      | zero => simp
      | succ n =>
        simp only [List.getElem?_cons_succ, List.length_cons] at h ⊢
        have := ih (attempt + 1) n (by omega)
        rw [this]
        have harith : attempt + 1 + n = attempt + (n + 1) := by omega
        rw [harith]

/-- When every attempt from `attempt` through `attempt + remaining` fails
with a network error, the loop retries through all of them and ends with
the wrapping error carrying the total attempt count and the last observed
error. -/
theorem postLoop_netFail_exhausts (oracle : Nat → AttemptOutcome) :
    ∀ remaining attempt,
      (∀ k, attempt ≤ k → k ≤ attempt + remaining → ∃ e, oracle k = .netFail e) →
      ∃ e, oracle (attempt + remaining) = .netFail e
        ∧ (postLoop oracle attempt remaining).result
            = .error (.exhausted (attempt + remaining + 1) e)
        ∧ (postLoop oracle attempt remaining).attempts = remaining + 1 := by
  intro remaining
  induction remaining with
  | zero =>
    intro attempt hall
    obtain ⟨e, he⟩ := hall attempt le_rfl (by omega)
    exact ⟨e, by simpa using he, by simp [postLoop, he], by simp [postLoop, he]⟩
  | succ remaining ih =>
    intro attempt hall
    obtain ⟨e0, he0⟩ := hall attempt le_rfl (by omega)
    obtain ⟨e, he, hres, hatt⟩ := ih (attempt + 1)
      (fun k hk1 hk2 => hall k (by omega) (by omega))
    refine ⟨e, by simpa [Nat.add_comm, Nat.add_assoc, Nat.add_left_comm] using he, ?_, ?_⟩
    · simp only [postLoop, he0]
      rw [hres]
      have : attempt + 1 + remaining = attempt + (remaining + 1) := by omega
      rw [this]
    · simp only [postLoop, he0]
      simpa using hatt

/-- When every attempt from `attempt` through `attempt + remaining` is
answered with HTTP 429, the loop retries through all of them and the final
attempt's 429 reaches `raise_for_status`, surfacing as the bare HTTP-status
error — not as the attempt-count-carrying wrapper. -/
theorem postLoop_429_exhausts (oracle : Nat → AttemptOutcome) :
    ∀ remaining attempt,
      (∀ k, attempt ≤ k → k ≤ attempt + remaining → ∃ b, oracle k = .response 429 b) →
      (postLoop oracle attempt remaining).result = .error (.httpStatus 429)
        ∧ (postLoop oracle attempt remaining).attempts = remaining + 1 := by
  intro remaining
  induction remaining with
  | zero =>
    intro attempt hall
    obtain ⟨b, hb⟩ := hall attempt le_rfl (by omega)
    constructor <;> simp [postLoop, hb, handleResponse]
  | succ remaining ih =>
    intro attempt hall
    obtain ⟨b, hb⟩ := hall attempt le_rfl (by omega)
    obtain ⟨hres, hatt⟩ := ih (attempt + 1)
      (fun k hk1 hk2 => hall k (by omega) (by omega))
    constructor
    · simp only [postLoop, hb, if_true]
      simpa using hres
    · simp only [postLoop, hb, if_true]
      simpa using hatt

/-! ## Claim C3 -/

/-- Claim C3 as stated is false at this input: a call rate-limited with 429
on every one of the `MAX_RETRIES + 1` attempts does not raise the wrapper
that carries the attempt count — the final attempt's 429 falls through to
`raise_for_status` (the `except` clause catches only timeouts and
connection errors), so the bare HTTP-status error escapes `_post`. -/
theorem post_exhaustion_counterexample :
    post always429 MAX_RETRIES = ⟨.error (.httpStatus 429), [3, 6, 12], 4⟩
    ∧ isExhaustedResult (post always429 MAX_RETRIES) = false := by
  decide

/-- Claim C3 (amended): when all `MAX_RETRIES + 1 = 4` attempts fail with a
timeout or connection error, `_post` raises the exception wrapping the last
observed error and the total attempt count; when instead every attempt is
answered with HTTP 429, `_post` makes the same 4 attempts but raises the
bare HTTP-status error from `raise_for_status` on the final attempt,
without the attempt-count-carrying wrapper. -/
theorem post_exhaustion_behavior (oracle : Nat → AttemptOutcome) :
    ((∀ k, k ≤ MAX_RETRIES → ∃ e, oracle k = .netFail e) →
      ∃ e, oracle MAX_RETRIES = .netFail e
        ∧ (post oracle MAX_RETRIES).result = .error (.exhausted (MAX_RETRIES + 1) e)
        ∧ (post oracle MAX_RETRIES).attempts = MAX_RETRIES + 1
        ∧ MAX_RETRIES + 1 = 4)
    ∧ ((∀ k, k ≤ MAX_RETRIES → ∃ b, oracle k = .response 429 b) →
      (post oracle MAX_RETRIES).result = .error (.httpStatus 429)
        ∧ (post oracle MAX_RETRIES).attempts = MAX_RETRIES + 1) := by
  constructor
  · intro hall
    obtain ⟨e, he, hres, hatt⟩ := postLoop_netFail_exhausts oracle MAX_RETRIES 0
      (fun k hk1 hk2 => hall k (by omega))
    exact ⟨e, by simpa using he, by simpa [post] using hres, by simpa [post] using hatt, rfl⟩
  · intro hall
    obtain ⟨hres, hatt⟩ := postLoop_429_exhausts oracle MAX_RETRIES 0
      (fun k hk1 hk2 => hall k (by omega))
    exact ⟨by simpa [post] using hres, by simpa [post] using hatt⟩

theorem post_exhaustion_behavior_witness :
    (∃ e, alwaysTimeout MAX_RETRIES = .netFail e
      ∧ (post alwaysTimeout MAX_RETRIES).result = .error (.exhausted (MAX_RETRIES + 1) e)
      ∧ (post alwaysTimeout MAX_RETRIES).attempts = MAX_RETRIES + 1
      ∧ MAX_RETRIES + 1 = 4)
    ∧ ((post always429 MAX_RETRIES).result = .error (.httpStatus 429)
      ∧ (post always429 MAX_RETRIES).attempts = MAX_RETRIES + 1) :=
  ⟨(post_exhaustion_behavior alwaysTimeout).1 (fun _ _ => ⟨.timeout, rfl⟩),
   (post_exhaustion_behavior always429).2 (fun _ _ => ⟨⟨none, ""⟩, rfl⟩)⟩

/-! ## Claim C5 -/

/-- Claim C5: within a single `_post` call, the delay slept before the
n-th retry (1-indexed) is `BASE_RETRY_DELAY * 2^(n-1)` seconds — stated
here 0-indexed: the sleep at position `n` of the trace is
`BASE_RETRY_DELAY * 2 ^ n`, i.e. 3s, 6s, 12s — identically for 429
rate-limit responses and for timeout / connection failures (the oracle is
arbitrary, so any mix of the two retryable failure kinds is covered). -/
theorem post_backoff_delays (oracle : Nat → AttemptOutcome) (retries : Nat)
    (n : Nat) (h : n < (post oracle retries).sleeps.length) :
    (post oracle retries).sleeps[n]? = some (BASE_RETRY_DELAY * 2 ^ n) := by
  have := postLoop_sleeps oracle retries 0 n (by simpa [post] using h)
  simpa [post] using this

theorem post_backoff_delays_witness :
    (1 < (post alwaysTimeout MAX_RETRIES).sleeps.length
      ∧ (post alwaysTimeout MAX_RETRIES).sleeps[1]? = some (BASE_RETRY_DELAY * 2 ^ 1))
    ∧ (2 < (post always429 MAX_RETRIES).sleeps.length
      ∧ (post always429 MAX_RETRIES).sleeps[2]? = some (BASE_RETRY_DELAY * 2 ^ 2)) :=
  ⟨⟨by decide, post_backoff_delays alwaysTimeout MAX_RETRIES 1 (by decide)⟩,
   ⟨by decide, post_backoff_delays always429 MAX_RETRIES 2 (by decide)⟩⟩

/-! ## Claim C6 -/

/-- Claim C6 as stated is false at this input: a response with the non-2xx
status 300 (not 429) and a well-formed JSON body without an "error" field
makes `_post` return the body successfully — `raise_for_status` raises only
for statuses in 400..599, so "any non-2xx status other than 429 raises" is
too strong. -/
theorem post_fatal_counterexample :
    post resp300 MAX_RETRIES = ⟨.ok ⟨none, "redirected"⟩, [], 1⟩
    ∧ resultIsOk (post resp300 MAX_RETRIES) = true := by
  decide

/-- Claim C6 (amended): a fatal remote error is never retried — when an
attempt is answered with a 4xx/5xx status other than 429 (the statuses for
which `raise_for_status` raises), or with a status outside 400..599 whose
JSON body carries an "error" field, `_post` raises on that same attempt:
no sleep is recorded and exactly one (this) attempt is consumed, however
many retries were still allowed.  (A 429 is also raised un-retried in the
degenerate case `remaining = 0`, covered by claim C3.) -/
theorem post_fatal_not_retried (oracle : Nat → AttemptOutcome)
    (attempt remaining status : Nat) (body : RespBody)
    (hor : oracle attempt = .response status body) :
    (400 ≤ status → status < 600 → status ≠ 429 →
      postLoop oracle attempt remaining = ⟨.error (.httpStatus status), [], 1⟩)
    ∧ (¬(400 ≤ status ∧ status < 600) → ∀ m, body.error = some m →
      postLoop oracle attempt remaining = ⟨.error (.remote m), [], 1⟩) := by
  constructor
  · intro h4 h6 h429
    cases remaining with
    | zero => simp [postLoop, hor, handleResponse, h4, h6]
    | succ remaining => simp [postLoop, hor, h429, handleResponse, h4, h6]
  · intro hrange m hm
    have h429 : status ≠ 429 := by
      intro hst
      exact hrange (by omega)
    cases remaining with
    | zero => simp [postLoop, hor, handleResponse, hrange, hm]
    | succ remaining => simp [postLoop, hor, h429, handleResponse, hrange, hm]

theorem post_fatal_not_retried_witness :
    postLoop resp500 0 MAX_RETRIES = ⟨.error (.httpStatus 500), [], 1⟩
    ∧ postLoop respRemoteErr 0 MAX_RETRIES = ⟨.error (.remote "content policy"), [], 1⟩ :=
  ⟨(post_fatal_not_retried resp500 0 MAX_RETRIES 500 ⟨none, ""⟩ rfl).1
      (by decide) (by decide) (by decide),
   (post_fatal_not_retried respRemoteErr 0 MAX_RETRIES 200 ⟨some "content policy", ""⟩ rfl).2
      (by decide) "content policy" rfl⟩

/-! ## Scheduler lemmas -/

/-- Setting one slot of a list that tabulates `f` over `0..n-1` tabulates
the pointwise-updated function. -/
theorem map_range_set {α : Type} (f : Nat → α) (v : α) (n o : Nat) (ho : o < n) :
    ((List.range n).map f).set o v
      = (List.range n).map (fun i => if i = o then v else f i) := by
  apply List.ext_getElem?
  intro i
  simp only [List.getElem?_set, List.length_map, List.length_range, List.getElem?_map]
  by_cases hoi : o = i
  · subst hoi
    simp [ho, List.getElem?_range ho]
  · simp only [hoi, if_false]
    by_cases hin : i < n
    · have hne : i ≠ o := fun h => hoi h.symm
      simp [List.getElem?_range hin, hne]
    · have : (List.range n)[i]? = none := by
        apply List.getElem?_eq_none
        simpa using Nat.le_of_not_lt hin
      simp [this]

/-- After folding the collection loop over any list of future indices, slot
`i` of the result list holds the result computed for job `i` if `i`
occurred in the list, and is untouched otherwise.  The starting result
list may tabulate any function `f` over the indices. -/
theorem foldl_sched_results (segments : List Segment)
    (outcome : Nat → Except ClientError String) (order : List Nat) :
    ∀ (f : Nat → Option SegResult) (c : Nat) (cb : List (Nat × Nat)) (nc : Nat),
      (order.foldl (schedStep segments outcome)
          ⟨(List.range segments.length).map f, c, cb, nc⟩).results
        = (List.range segments.length).map
            (fun i => if i ∈ order then
                (segments[i]?).map (fun seg => segResultFor seg (outcome i))
              else f i) := by
  induction order with
  | nil =>
    intro f c cb nc
    simp
  | cons o os ih =>
    intro f c cb nc
    rw [List.foldl_cons]
    cases ho : segments[o]? with
    | none =>
      have hno : segments.length ≤ o := by
        by_contra hlt
        rw [List.getElem?_eq_getElem (Nat.lt_of_not_le hlt)] at ho
        exact Option.noConfusion ho
      have hstep : schedStep segments outcome
          ⟨(List.range segments.length).map f, c, cb, nc⟩ o
            = ⟨(List.range segments.length).map f, c, cb, nc⟩ := by
        simp [schedStep, ho]
      rw [hstep, ih f c cb nc]
      apply List.map_congr_left
      intro i hi
      have hin : i < segments.length := List.mem_range.mp hi
      have hio : i ≠ o := by omega
      simp [List.mem_cons, hio]
    | some seg =>
      have ho' : o < segments.length := by
        by_contra hlt
        rw [List.getElem?_eq_none (Nat.le_of_not_lt hlt)] at ho
        exact Option.noConfusion ho
      have hstep : schedStep segments outcome
          ⟨(List.range segments.length).map f, c, cb, nc⟩ o
            = ⟨((List.range segments.length).map f).set o
                  (some (segResultFor seg (outcome o))),
               c + 1, cb ++ [(c + 1, segments.length)], nc + 1⟩ := by
        simp [schedStep, ho]
      rw [hstep, map_range_set _ _ _ _ ho',
        ih (fun i => if i = o then some (segResultFor seg (outcome o)) else f i)]
      apply List.map_congr_left
      intro i hi
      by_cases hios : i ∈ os
      · simp [hios, List.mem_cons]
      · by_cases hio : i = o
        · subst hio
          simp [hios, ho]
        · simp [hios, hio, List.mem_cons]

/-- After folding the collection loop over a list of valid future indices,
the `completed` counter has grown by the list's length, one progress
callback `(completed, total)` was appended per processed future with the
counts `c+1, c+2, ...` in order, and one network job was consumed per
future. -/
theorem foldl_sched_counters (segments : List Segment)
    (outcome : Nat → Except ClientError String) (order : List Nat)
    (hvalid : ∀ o ∈ order, o < segments.length) :
    ∀ (res : List (Option SegResult)) (c : Nat) (cb : List (Nat × Nat)) (nc : Nat),
      (order.foldl (schedStep segments outcome) ⟨res, c, cb, nc⟩).completed
          = c + order.length
      ∧ (order.foldl (schedStep segments outcome) ⟨res, c, cb, nc⟩).callbackCalls
          = cb ++ (List.range order.length).map (fun k => (c + 1 + k, segments.length))
      ∧ (order.foldl (schedStep segments outcome) ⟨res, c, cb, nc⟩).networkCalls
          = nc + order.length := by
  induction order with
  | nil =>
    intro res c cb nc
    simp
  | cons o os ih =>
    intro res c cb nc
    have ho : o < segments.length := hvalid o (List.mem_cons_self o os)
    have hos : ∀ x ∈ os, x < segments.length :=
      fun x hx => hvalid x (List.mem_cons_of_mem o hx)
    have hsome : segments[o]? = some segments[o] := List.getElem?_eq_getElem ho
    have hstep : schedStep segments outcome ⟨res, c, cb, nc⟩ o
        = ⟨res.set o (some (segResultFor segments[o] (outcome o))),
           c + 1, cb ++ [(c + 1, segments.length)], nc + 1⟩ := by
      simp [schedStep, hsome]
    rw [List.foldl_cons, hstep]
    obtain ⟨h1, h2, h3⟩ := (ih hos) (res.set o (some (segResultFor segments[o] (outcome o))))
      (c + 1) (cb ++ [(c + 1, segments.length)]) (nc + 1)
    simp only [List.length_cons]
    refine ⟨by omega, ?_, by omega⟩
    rw [h2, List.append_assoc, List.singleton_append,
      List.range_succ_eq_map, List.map_cons, List.map_map]
    congr 2
    apply List.map_congr_left
    intro k _
    simp only [Function.comp_apply, Nat.succ_eq_add_one]
    congr 1
    omega

/-- The scheduler's initial result list tabulates the constant `none`. -/
theorem replicate_none_eq_map_range (n : Nat) :
    List.replicate n (none : Option SegResult)
      = (List.range n).map (fun _ => none) := by
  rw [List.map_const', List.length_range]

/-- Full characterisation of the result list for a genuine completion
order (a permutation of the job indices): every slot `i` holds exactly the
result computed for job `i`. -/
theorem runScheduler_results (segments : List Segment)
    (outcome : Nat → Except ClientError String) (order : List Nat)
    (hperm : order.Perm (List.range segments.length)) :
    (runScheduler segments outcome order).results
      = (List.range segments.length).map
          (fun i => (segments[i]?).map (fun seg => segResultFor seg (outcome i))) := by
  rw [runScheduler, replicate_none_eq_map_range,
    foldl_sched_results segments outcome order (fun _ => none) 0 [] 0]
  apply List.map_congr_left
  intro i hi
  have : i ∈ order := hperm.mem_iff.mpr hi
  simp [this]

/-! ## Claim C1 -/

/-- Claim C1: for every input segment list and every completion order of
the per-segment futures, `describe_segments_parallel`'s result list has
exactly the input's length and slot `i` is filled (never `None`) with a
result carrying `start_time`, `end_time` and `transcript_chunk` unchanged
from input segment `i` and some (always-present) string
`visual_description`, regardless of completion order and regardless of
which per-segment calls succeeded or raised. -/
theorem describe_segments_order_preserved (segments : List Segment)
    (outcome : Nat → Except ClientError String) (order : List Nat)
    (hperm : order.Perm (List.range segments.length)) :
    (runScheduler segments outcome order).results.length = segments.length
    ∧ ∀ i (hi : i < segments.length), ∃ r : SegResult,
        (runScheduler segments outcome order).results[i]? = some (some r)
        ∧ r.start_time = segments[i].start_time
        ∧ r.end_time = segments[i].end_time
        ∧ r.transcript_chunk = segments[i].transcript_chunk := by
  rw [runScheduler_results segments outcome order hperm]
  constructor
  · simp
  · intro i hi
    refine ⟨segResultFor segments[i] (outcome i), ?_, rfl, rfl, rfl⟩
    simp [List.getElem?_map, List.getElem?_range hi, List.getElem?_eq_getElem hi]

theorem describe_segments_order_preserved_witness :
    [1, 0].Perm (List.range [segA, segB].length)
    ∧ ((runScheduler [segA, segB] outcomeW [1, 0]).results.length = [segA, segB].length
      ∧ ∀ i (hi : i < [segA, segB].length), ∃ r : SegResult,
          (runScheduler [segA, segB] outcomeW [1, 0]).results[i]? = some (some r)
          ∧ r.start_time = [segA, segB][i].start_time
          ∧ r.end_time = [segA, segB][i].end_time
          ∧ r.transcript_chunk = [segA, segB][i].transcript_chunk) :=
  ⟨by decide, describe_segments_order_preserved [segA, segB] outcomeW [1, 0] (by decide)⟩

/-! ## Claim C2 -/

/-- Claim C2: the scheduler catches any exception a per-segment call
raises — for every completion order, a failed job `i` still yields a
result at slot `i` whose `visual_description` is the unavailability marker
followed by a space and the segment's transcript verbatim when the
transcript is non-empty, or the bare marker when it is empty; and every
job whose call succeeded is unaffected, its slot carrying the genuine
model description.  The scheduler's result is total (a full `SchedState`,
never a propagated exception) whatever the outcomes. -/
theorem describe_segments_degradation (segments : List Segment)
    (outcome : Nat → Except ClientError String) (order : List Nat)
    (hperm : order.Perm (List.range segments.length)) :
    (∀ i (hi : i < segments.length) (e : ClientError), outcome i = .error e →
      (runScheduler segments outcome order).results[i]? = some (some
        { start_time := segments[i].start_time
          end_time := segments[i].end_time
          transcript_chunk := segments[i].transcript_chunk
          visual_description :=
            if segments[i].transcript_chunk = "" then
              "[Visual analysis unavailable for this segment]"
            else "[Visual analysis unavailable for this segment] "
              ++ segments[i].transcript_chunk }))
    ∧ (∀ i (hi : i < segments.length) (d : String), outcome i = .ok d →
      (runScheduler segments outcome order).results[i]? = some (some
        { start_time := segments[i].start_time
          end_time := segments[i].end_time
          transcript_chunk := segments[i].transcript_chunk
          visual_description := d })) := by
  have hchar := runScheduler_results segments outcome order hperm
  constructor
  · intro i hi e he
    have hval : segResultFor segments[i] (outcome i)
        = { start_time := segments[i].start_time
            end_time := segments[i].end_time
            transcript_chunk := segments[i].transcript_chunk
            visual_description :=
              if segments[i].transcript_chunk = "" then
                "[Visual analysis unavailable for this segment]"
              else "[Visual analysis unavailable for this segment] "
                ++ segments[i].transcript_chunk } := by
      by_cases ht : segments[i].transcript_chunk = "" <;>
        simp [segResultFor, he, fallbackDescription, ht]
    rw [hchar]
    simp [List.getElem?_map, List.getElem?_range hi, List.getElem?_eq_getElem hi, hval]
  · intro i hi d hd
    have hval : segResultFor segments[i] (outcome i)
        = { start_time := segments[i].start_time
            end_time := segments[i].end_time
            transcript_chunk := segments[i].transcript_chunk
            visual_description := d } := by
      simp [segResultFor, hd]
    rw [hchar]
    simp [List.getElem?_map, List.getElem?_range hi, List.getElem?_eq_getElem hi, hval]

theorem describe_segments_degradation_witness :
    (runScheduler [segA, segB] outcomeW [0, 1]).results[1]?
      = some (some (SegResult.mk 30 60 ""
          "[Visual analysis unavailable for this segment]"))
    ∧ (runScheduler [segA, segB] outcomeW [0, 1]).results[0]?
      = some (some (SegResult.mk 0 30 "hello world" "a lecture slide")) := by
  constructor
  · have h := (describe_segments_degradation [segA, segB] outcomeW [0, 1] (by decide)).1
      1 (by decide) (.exhausted 4 .timeout) rfl
    simpa [segA, segB] using h
  · have h := (describe_segments_degradation [segA, segB] outcomeW [0, 1] (by decide)).2
      0 (by decide) "a lecture slide" rfl
    simpa [segA, segB] using h

/-! ## Claim C8 -/

/-- Claim C8: for every completion order of the futures, the progress
callback is invoked exactly once per completed job with arguments
`(completed_count, total_count)`, where `total_count` is the input length
and the `completed_count` values are exactly 1, 2, ..., N in order of
invocation (so strictly increasing); for an empty input the callback list
is empty. -/
theorem describe_segments_progress (segments : List Segment)
    (outcome : Nat → Except ClientError String) (order : List Nat)
    (hperm : order.Perm (List.range segments.length)) :
    (runScheduler segments outcome order).callbackCalls
      = (List.range segments.length).map (fun k => (k + 1, segments.length)) := by
  have hvalid : ∀ o ∈ order, o < segments.length :=
    fun o ho => List.mem_range.mp (hperm.mem_iff.mp ho)
  have hlen : order.length = segments.length :=
    hperm.length_eq.trans (List.length_range _)
  obtain ⟨-, h2, -⟩ := foldl_sched_counters segments outcome order hvalid
    (List.replicate segments.length none) 0 [] 0
  rw [runScheduler, h2, hlen, List.nil_append]
  apply List.map_congr_left
  intro k _
  congr 1
  omega

theorem describe_segments_progress_witness :
    [1, 0].Perm (List.range [segA, segB].length)
    ∧ (runScheduler [segA, segB] outcomeW [1, 0]).callbackCalls
        = (List.range [segA, segB].length).map (fun k => (k + 1, [segA, segB].length)) :=
  ⟨by decide, describe_segments_progress [segA, segB] outcomeW [1, 0] (by decide)⟩

/-! ## Worker-pool lemmas -/

/-- One pool transition preserves the invariant: the pending and running
jobs together stay duplicate-free and at most `W` jobs run. -/
theorem poolStep_inv {W : Nat} {s t : PoolState}
    (hs : (s.pending ++ s.running).Nodup ∧ s.running.length ≤ W)
    (hst : PoolStep W s t) :
    (t.pending ++ t.running).Nodup ∧ t.running.length ≤ W := by
  obtain ⟨hnd, hlen⟩ := hs
  obtain ⟨hp, hr, hdisj⟩ := List.nodup_append.mp hnd
  cases hst with
  | start j hj hW =>
    constructor
    · apply List.nodup_append.mpr
      refine ⟨hp.erase j, ?_, ?_⟩
      · exact List.nodup_cons.mpr ⟨hdisj hj, hr⟩
      · intro a ha
        obtain ⟨haj, hap⟩ := hp.mem_erase_iff.mp ha
        intro hmem
        rcases List.mem_cons.mp hmem with h | h
        · exact haj h
        · exact hdisj hap h
    · simpa using hW
  | finish j hj =>
    constructor
    · exact ((List.erase_sublist j s.running).append_left s.pending).nodup hnd
    · exact le_trans (List.erase_sublist j s.running).length_le hlen

/-! ## Claim C4 -/

/-- Claim C4: in every state the worker pool of
`describe_segments_parallel` can reach, at most `MAX_WORKERS = 3` jobs are
running — hence at most 3 network requests are in flight, since each
worker job performs its network call synchronously — jobs beyond that wait
in the pending queue for a free slot, and no job is ever running twice
concurrently. -/
theorem pool_concurrency_bounded (n : Nat) (s : PoolState)
    (h : PoolReachable MAX_WORKERS n s) :
    s.running.length ≤ MAX_WORKERS ∧ s.running.Nodup := by
  have key : (s.pending ++ s.running).Nodup ∧ s.running.length ≤ MAX_WORKERS := by
    induction h with
    | refl => exact ⟨by simp [poolInit, List.nodup_range], by simp [poolInit]⟩
    | tail hreach hstep ih => exact poolStep_inv ih hstep
  exact ⟨key.2, key.1.of_append_right⟩

theorem pool_concurrency_bounded_witness :
    (PoolState.mk ((List.range 5).erase 0) [0] []).running.length ≤ MAX_WORKERS
    ∧ (PoolState.mk ((List.range 5).erase 0) [0] []).running.Nodup :=
  pool_concurrency_bounded 5 _
    (Relation.ReflTransGen.single
      (PoolStep.start (poolInit 5) 0 (by decide) (by decide)))

/-! ## Claim C7 -/

/-- Claim C7: when no API credential is configured — no explicit `api_key`
argument (or an empty one, both falsy in the source) and no
`NVIDIA_API_KEY` in the environment — `describe_segments_parallel` and
`describe_frames` raise the configuration error straight away: the error
branch is taken before the scheduler state exists, so no job is scheduled,
no progress callback fires and no network attempt is consumed. -/
theorem missing_key_short_circuits (segments : List Segment)
    (outcome : Nat → Except ClientError String) (order : List Nat)
    (framesB64 : List String) (prompt : String)
    (net : List ContentItem → Nat → AttemptOutcome) :
    describe_segments_parallel "" "" segments outcome order
      = .error (.config "NVIDIA_API_KEY is not set.")
    ∧ describe_frames framesB64 prompt "" "" net
      = .error (.config "NVIDIA_API_KEY is not set.") :=
  ⟨rfl, rfl⟩

/-! ## Context-assembler lemmas -/

/-- The code's sequentially-assembled block equals the block as the
specification describes it. -/
theorem segmentBlock_eq_spec (seg : SegResult) :
    segmentBlock seg = contextBlockSpec seg := by
  by_cases ht : seg.transcript_chunk = "" <;>
    by_cases hv : seg.visual_description = "" <;>
      simp [segmentBlock, contextBlockSpec, ht, hv, String.append_assoc,
        String.append_empty]

/-! ## Claim C9 -/

/-- Claim C9: `build_full_context` is a pure deterministic function — it
equals, for every input, the join by "\n" of the per-segment blocks the
spec describes (bracketed time-range header, then a `Transcript:` line
exactly when the transcript is non-empty, then a `Visual:` line exactly
when the description is non-empty, in input order); every block ends with
a newline, so the "\n" separator placed between consecutive blocks by the
join renders as a blank line between them; and equal inputs give
byte-identical output. -/
theorem build_full_context_spec :
    (∀ analyzed : List SegResult,
      build_full_context analyzed = pyJoin "\n" (analyzed.map contextBlockSpec))
    ∧ (∀ seg : SegResult, ∃ t, contextBlockSpec seg = t ++ "\n")
    ∧ (∀ l1 l2 : List SegResult, l1 = l2 →
        build_full_context l1 = build_full_context l2) := by
  refine ⟨?_, ?_, ?_⟩
  · intro analyzed
    rw [build_full_context]
    exact congrArg _ (List.map_congr_left (fun seg _ => segmentBlock_eq_spec seg))
  · intro seg
    rw [contextBlockSpec]
    by_cases ht : seg.transcript_chunk = "" <;> by_cases hv : seg.visual_description = ""
    · exact ⟨"[" ++ (fmt seg.start_time ++ " - " ++ fmt seg.end_time) ++ "]", by
        simp [ht, hv, String.append_assoc, String.append_empty]⟩
    · exact ⟨("[" ++ (fmt seg.start_time ++ " - " ++ fmt seg.end_time) ++ "]\n")
          ++ ("Visual: " ++ seg.visual_description), by
        simp [ht, hv, String.append_assoc, String.append_empty]⟩
    · exact ⟨("[" ++ (fmt seg.start_time ++ " - " ++ fmt seg.end_time) ++ "]\n")
          ++ ("Transcript: " ++ seg.transcript_chunk), by
        simp [ht, hv, String.append_assoc, String.append_empty]⟩
    · exact ⟨("[" ++ (fmt seg.start_time ++ " - " ++ fmt seg.end_time) ++ "]\n")
          ++ ("Transcript: " ++ seg.transcript_chunk ++ "\n")
          ++ ("Visual: " ++ seg.visual_description), by
        simp [ht, hv, String.append_assoc, String.append_empty]⟩
  · intro l1 l2 h
    rw [h]

theorem build_full_context_spec_witness :
    build_full_context [SegResult.mk 0 30 "" "a slide"]
      = pyJoin "\n" ([SegResult.mk 0 30 "" "a slide"].map contextBlockSpec)
    ∧ (∃ t, contextBlockSpec (SegResult.mk 0 30 "" "a slide") = t ++ "\n")
    ∧ build_full_context [SegResult.mk 0 30 "" "a slide"]
      = build_full_context [SegResult.mk 0 30 "" "a slide"] :=
  ⟨build_full_context_spec.1 _, build_full_context_spec.2.1 _,
   build_full_context_spec.2.2 _ _ rfl⟩

/-! ## Transcript-range lemmas -/

/-- The accumulating loop of `get_transcript_for_range` collects exactly
the texts of the segments passing the strict-overlap test, appended to the
running accumulator in input order. -/
theorem transcript_foldl_eq (start finish : ℚ) :
    ∀ (l : List TranscriptSeg) (acc : List String),
      l.foldl
          (fun parts seg =>
            if seg.stop > start ∧ seg.start < finish then parts ++ [seg.text] else parts)
          acc
        = acc ++ (l.filter (fun seg => overlapsRange seg start finish)).map
            TranscriptSeg.text := by
  intro l
  induction l with
  | nil => intro acc; simp
  | cons seg rest ih =>
    intro acc
    by_cases hov : seg.stop > start ∧ seg.start < finish
    · have hb : overlapsRange seg start finish = true := by
        simp [overlapsRange]
        exact ⟨hov.1, hov.2⟩
      rw [List.foldl_cons, if_pos hov, ih, List.filter_cons, hb]
      simp
    · have hb : overlapsRange seg start finish = false := by
        simp only [overlapsRange, decide_eq_false_iff_not]
        intro hc
        exact hov ⟨hc.1, hc.2⟩
      rw [List.foldl_cons, if_neg hov, ih, List.filter_cons, hb]
      simp

/-! ## Claim C10 -/

/-- Claim C10: `get_transcript_for_range` returns the texts of exactly the
segments that strictly overlap the queried range — those with
`seg.end > start` and `seg.start < end` — joined by single spaces in input
order; a segment that merely touches a boundary (`seg.end = start` or
`seg.start = end`) fails the strict test and contributes nothing, and the
result is the empty string when no segment overlaps. -/
theorem get_transcript_for_range_spec :
    (∀ (segments : List TranscriptSeg) (start finish : ℚ),
      get_transcript_for_range segments start finish
        = pyJoin " " ((segments.filter
            (fun seg => overlapsRange seg start finish)).map TranscriptSeg.text))
    ∧ (∀ (segments : List TranscriptSeg) (start finish : ℚ),
        (∀ seg ∈ segments, overlapsRange seg start finish = false) →
        get_transcript_for_range segments start finish = "")
    ∧ (∀ (seg : TranscriptSeg) (start finish : ℚ),
        seg.stop = start ∨ seg.start = finish →
        overlapsRange seg start finish = false) := by
  refine ⟨?_, ?_, ?_⟩
  · intro segments start finish
    rw [get_transcript_for_range, transcript_foldl_eq start finish segments []]
    rfl
  · intro segments start finish hall
    rw [get_transcript_for_range, transcript_foldl_eq start finish segments []]
    have : segments.filter (fun seg => overlapsRange seg start finish) = [] :=
      List.filter_eq_nil_iff.mpr (fun seg hseg => by simp [hall seg hseg])
    rw [this]
    rfl
  · intro seg start finish h
    simp only [overlapsRange, decide_eq_false_iff_not]
    intro hc
    rcases h with h | h
    · rw [h] at hc
      exact lt_irrefl start hc.1
    · rw [h] at hc
      exact lt_irrefl finish hc.2

theorem get_transcript_for_range_spec_witness :
    get_transcript_for_range [TranscriptSeg.mk 0 2 "a"] 2 5 = ""
    ∧ overlapsRange (TranscriptSeg.mk 0 2 "a") 2 5 = false :=
  ⟨get_transcript_for_range_spec.2.1 [TranscriptSeg.mk 0 2 "a"] 2 5 (by decide),
   get_transcript_for_range_spec.2.2 (TranscriptSeg.mk 0 2 "a") 2 5 (Or.inl rfl)⟩

end NemoLens
